import Mathlib

/-!
Verification of the title2ris pipeline (title2ris.py, config.py).

Python strings are modelled as lists of characters (`Str`); `str.lower()`
as character-wise ASCII lowering (every skip pattern and every string the
claims mention is ASCII); machine behaviour that can raise (list indexing
on an empty list) is modelled with `Except`/`Option`.  Each definition is
translated from the named source function; definitions that follow a spec
sentence instead (for refinement comparison) say so in their doc comment.
-/

/-- A Python string, modelled as its list of characters. -/
abbrev Str := List Char

/-- Python `str.lower()` (ASCII lowering; all inputs of interest are ASCII). -/
def lowerStr (s : Str) : Str := s.map Char.toLower

/-- Python `str.strip()`: drop whitespace from both ends. -/
def stripStr (s : Str) : Str :=
  ((s.dropWhile Char.isWhitespace).reverse.dropWhile Char.isWhitespace).reverse

/-- Python substring test `p in s`. -/
def containsSub : Str → Str → Bool
  | [], p => p.isEmpty
  | c :: rest, p => p.isPrefixOf (c :: rest) || containsSub rest p

/-- Python `sep.join(parts)`. -/
def joinSep (sep : Str) : List Str → Str
  | [] => []
  | [s] => s
  | s :: s2 :: rest => s ++ sep ++ joinSep sep (s2 :: rest)

/-- config.py `SKIP_TITLES`. -/
def SKIP_TITLES : List Str :=
  (["Frontispiece", "Frontispiz", "SI", "Supplemental Information",
    "Supplementary Information", "Supporting Information", "Cover Picture",
    "Cover Image", "Graphical Abstract", "Table of Contents"] : List String).map
    String.toList

/-- config.py `BATCH_SIZE`. -/
def BATCH_SIZE : Nat := 3

/-- config.py `MAX_RETRIES`. -/
def MAX_RETRIES : Nat := 3

/-- One entry of a Crossref `author` list (only the keys the code reads). -/
structure Author where
  family : Option Str := none
  given : Option Str := none
deriving DecidableEq

/-- A JSON value that the code treats as string-or-list-of-strings
(the `abstract` field). -/
inductive AbsVal where
  | str (s : Str)
  | list (l : List Str)
deriving DecidableEq

/-- The `description` field: string, list of strings, or anything else. -/
inductive DescVal where
  | str (s : Str)
  | list (l : List Str)
  | other
deriving DecidableEq

/-- A date object: the value under its `date-parts` key, when that key is
present.  Each entry of `date-parts` is a year/month/day list. -/
structure DateObj where
  dateParts : Option (List (List Int)) := none
deriving DecidableEq

/-- One Crossref search hit, with the fields title2ris.py reads.  An absent
key is `none`. -/
structure Metadata where
  title : Option (List Str) := none
  author : Option (List Author) := none
  containerTitle : Option (List Str) := none
  shortContainerTitle : Option (List Str) := none
  abstract : Option AbsVal := none
  publishedPrint : Option DateObj := none
  publishedOnline : Option DateObj := none
  created : Option DateObj := none
  volume : Option Str := none
  issue : Option Str := none
  page : Option Str := none
  DOI : Option Str := none
  ISSN : Option (List Str) := none
  publisher : Option Str := none
  description : Option DescVal := none
deriving DecidableEq

/-- The inner match of `is_special_title` (title2ris.py lines 174-184):
both arguments are already lowered. -/
def matchesSkipVariant (title_lower skip_lower : Str) : Bool :=
  if title_lower == skip_lower then true
  else if (skip_lower ++ [':']).isPrefixOf title_lower
       || (skip_lower ++ [' ']).isPrefixOf title_lower then
    if skip_lower.length ≤ 3 then skip_lower.isPrefixOf title_lower
    else true
  else false

/-- One title-variant against all of `SKIP_TITLES` (the two nested loops of
the title check in `is_special_title`). -/
def titleVariantSpecial (t : Str) : Bool :=
  SKIP_TITLES.any fun skip => matchesSkipVariant (lowerStr t) (lowerStr skip)

/-- One description string against `SKIP_TITLES`: unanchored case-insensitive
substring containment (title2ris.py line 195). -/
def descSpecial (d : Str) : Bool :=
  SKIP_TITLES.any fun skip => containsSub (lowerStr d) (lowerStr skip)

/-- title2ris.py `is_special_title`: the title check, then the description
check. -/
def is_special_title (r : Metadata) : Bool :=
  (match r.title with
   | some ts => ts.any titleVariantSpecial
   | none => false)
  || (match r.description with
      | some (.str s) => descSpecial s
      | some (.list l) => l.any descSpecial
      | some .other => false
      | none => false)

theorem isPrefixOf_append_drop {s x t : Str} (h : (s ++ x).isPrefixOf t = true) :
    s.isPrefixOf t = true := by
  induction s generalizing t with
  | nil => simp [List.isPrefixOf]
  | cons a s ih =>
    cases t with
    | nil => simp [List.isPrefixOf] at h
    | cons b t =>
      simp only [List.cons_append, List.isPrefixOf, Bool.and_eq_true] at h ⊢
      exact ⟨h.1, ih h.2⟩

/-- The short-pattern guard of `is_special_title` is redundant: the match
reduces to equality or a prefix followed by a colon or a space. -/
theorem matchesSkipVariant_eq (t s : Str) :
    matchesSkipVariant t s
      = (t == s || (s ++ [':']).isPrefixOf t || (s ++ [' ']).isPrefixOf t) := by
  unfold matchesSkipVariant
  by_cases h1 : t == s
  · simp [h1]
  · simp only [h1, if_false, Bool.false_or]
    by_cases h2 : ((s ++ [':']).isPrefixOf t || (s ++ [' ']).isPrefixOf t) = true
    · simp only [h2, if_true]
      rcases Bool.or_eq_true _ _ |>.mp h2 with hp | hp
      · simp [isPrefixOf_append_drop hp]
      · simp [isPrefixOf_append_drop hp]
    · simp only [Bool.not_eq_true] at h2
      simp [h2]

/-- C4: the title check of `is_special_title` marks a candidate special iff
some title-variant equals a skip pattern (case-insensitively) or starts with
the pattern followed by a colon or a space; the extra guard for patterns of
at most 3 characters never changes the outcome, since the colon/space forms
already anchor the pattern at a token boundary.  In particular the pattern
"SI" matches the standalone title "SI" but not "SILICON". -/
theorem c4_title_rule :
    (∀ ts : List Str,
        ts.any titleVariantSpecial = true ↔
          ∃ t ∈ ts, ∃ skip ∈ SKIP_TITLES,
            lowerStr t = lowerStr skip
            ∨ ((lowerStr skip ++ [':']).isPrefixOf (lowerStr t) = true
               ∨ (lowerStr skip ++ [' ']).isPrefixOf (lowerStr t) = true))
    ∧ is_special_title { title := some ["SI".toList] } = true
    ∧ is_special_title { title := some ["SILICON".toList] } = false := by
  refine ⟨fun ts => ?_, by decide, by decide⟩
  simp only [List.any_eq_true, titleVariantSpecial, matchesSkipVariant_eq,
    Bool.or_eq_true, beq_iff_eq, or_assoc]

/-- One Crossref search response: `message.total-results` (0 when the key is
absent) and `message.items` ([] when absent). -/
structure SearchResponse where
  totalResults : Nat
  items : List Metadata
deriving DecidableEq

/-- The candidate scan of `get_metadata` (title2ris.py lines 134-138): first
item for which `is_special_title` is false. -/
def firstNonSpecial : List Metadata → Option Metadata
  | [] => none
  | r :: rest => if is_special_title r then firstNonSpecial rest else some r

/-- The success branch of `get_metadata` (title2ris.py lines 123-141): zero
total-results or empty items give `none`; otherwise the first non-special
item, falling back to the first item. -/
def get_metadata_success (resp : SearchResponse) : Option Metadata :=
  if resp.totalResults == 0 then none
  else
    match resp.items with
    | [] => none
    | first :: rest =>
      match firstNonSpecial (first :: rest) with
      | some r => some r
      | none => some first

theorem firstNonSpecial_eq_find (l : List Metadata) :
    firstNonSpecial l = l.find? fun r => ! is_special_title r := by
  induction l with
  | nil => rfl
  | cons r rest ih =>
    by_cases h : is_special_title r
    · simp [firstNonSpecial, h, List.find?_cons, ih]
    · simp [firstNonSpecial, h, List.find?_cons]

theorem firstNonSpecial_eq_none_of_all (l : List Metadata)
    (h : ∀ c ∈ l, is_special_title c = true) : firstNonSpecial l = none := by
  induction l with
  | nil => rfl
  | cons r rest ih =>
    simp only [firstNonSpecial, h r (List.mem_cons_self r rest), if_true]
    exact ih fun c hc => h c (List.mem_cons_of_mem r hc)

/-- C1: the resolver's success path returns `none` exactly as a normal empty
outcome (zero total-results or no items); with hits it returns the first
candidate in rank order that is not special, and when every candidate is
special it returns the rank-0 candidate instead of `none`. -/
theorem c1_resolver_selection (resp : SearchResponse) :
    (resp.totalResults = 0 ∨ resp.items = [] → get_metadata_success resp = none)
    ∧ (resp.totalResults ≠ 0 →
        ∀ r, resp.items.find? (fun c => ! is_special_title c) = some r →
          get_metadata_success resp = some r)
    ∧ (resp.totalResults ≠ 0 → resp.items ≠ [] →
        (∀ c ∈ resp.items, is_special_title c = true) →
          get_metadata_success resp = resp.items.head?) := by
  refine ⟨fun h => ?_, fun ht r hr => ?_, fun ht hne hall => ?_⟩
  · rcases h with h | h
    · simp [get_metadata_success, h]
    · simp [get_metadata_success, h]
  · have hfind : firstNonSpecial resp.items = some r := by
      rw [firstNonSpecial_eq_find]; exact hr
    cases hitems : resp.items with
    | nil => rw [hitems] at hfind; simp [firstNonSpecial] at hfind
    | cons first rest =>
      rw [hitems] at hfind
      simp [get_metadata_success, ht, hitems, hfind]
  · have hnone : firstNonSpecial resp.items = none :=
      firstNonSpecial_eq_none_of_all _ hall
    cases hitems : resp.items with
    | nil => exact absurd hitems hne
    | cons first rest =>
      rw [hitems] at hnone
      simp [get_metadata_success, ht, hitems, hnone]

/-- What one attempt of `get_metadata`'s loop observes from the network:
a parsed success response, a timeout, another requests exception, or any
other exception. -/
inductive AttemptOutcome where
  | ok (resp : SearchResponse)
  | timeout
  | requestError
  | otherError
deriving DecidableEq

/-- How a call to `get_metadata` ends: a normal return value, or an
`APIError` raised. -/
inductive ResolveOutcome where
  | result (r : Option Metadata)
  | apiError
deriving DecidableEq

/-- The retry loop of `get_metadata` (title2ris.py lines 117-162), with the
time.sleep calls collected in order.  The `attempt` argument is the loop
index; the list holds the outcome of each remaining attempt (an empty list
behaves as the loop falling off its end, returning `None`). -/
def runAttempts (max_retries : Nat) : Nat → List AttemptOutcome → ResolveOutcome × List Nat
  | _, [] => (.result none, [])
  | attempt, o :: rest =>
    match o with
    | .ok resp => (.result (get_metadata_success resp), [])
    | .timeout =>
      if attempt < max_retries - 1 then
        let p := runAttempts max_retries (attempt + 1) rest
        (p.1, min (2 ^ attempt) 60 :: p.2)
      else (.result none, [])
    | .requestError =>
      if attempt < max_retries - 1 then
        let p := runAttempts max_retries (attempt + 1) rest
        (p.1, min (2 ^ attempt) 60 :: p.2)
      else (.apiError, [])
    | .otherError => (.apiError, [])

/-- title2ris.py `get_metadata`: the empty-title guard, then at most
`max_retries` attempts of the loop. -/
def get_metadata (titleEmpty : Bool) (outcomes : List AttemptOutcome)
    (max_retries : Nat) : ResolveOutcome × List Nat :=
  if titleEmpty then (.result none, [])
  else runAttempts max_retries 0 (outcomes.take max_retries)

theorem runAttempts_cons_requestError (mr attempt : Nat) (rest : List AttemptOutcome) :
    runAttempts mr attempt (.requestError :: rest)
      = if attempt < mr - 1 then
          ((runAttempts mr (attempt + 1) rest).1,
            min (2 ^ attempt) 60 :: (runAttempts mr (attempt + 1) rest).2)
        else (.apiError, []) := rfl

theorem runAttempts_cons_timeout (mr attempt : Nat) (rest : List AttemptOutcome) :
    runAttempts mr attempt (.timeout :: rest)
      = if attempt < mr - 1 then
          ((runAttempts mr (attempt + 1) rest).1,
            min (2 ^ attempt) 60 :: (runAttempts mr (attempt + 1) rest).2)
        else (.result none, []) := rfl

theorem backoffWaits_step (attempt k : Nat) :
    min (2 ^ attempt) 60
        :: (List.range k).map (fun j => min (2 ^ (attempt + 1 + j)) 60)
      = (List.range (k + 1)).map fun j => min (2 ^ (attempt + j)) 60 := by
  rw [List.range_succ_eq_map, List.map_cons, List.map_map]
  congr 1
  apply List.map_congr_left
  intro j _
  have h3 : attempt + 1 + j = attempt + (j + 1) := by omega
  simp [Function.comp, h3]

theorem runAttempts_requestError (k' : Nat) :
    ∀ attempt max_retries, attempt + k' + 1 = max_retries →
      runAttempts max_retries attempt (List.replicate (k' + 1) .requestError)
        = (.apiError, (List.range k').map fun j => min (2 ^ (attempt + j)) 60) := by
  induction k' with
  | zero =>
    intro attempt max_retries h
    have : ¬ attempt < max_retries - 1 := by omega
    simp [List.replicate_succ, runAttempts_cons_requestError, this]
  | succ k ih =>
    intro attempt max_retries h
    have hlt : attempt < max_retries - 1 := by omega
    have hrec := ih (attempt + 1) max_retries (by omega)
    rw [List.replicate_succ, runAttempts_cons_requestError, if_pos hlt, hrec]
    exact congrArg₂ Prod.mk rfl (backoffWaits_step attempt k)

theorem runAttempts_timeout (k' : Nat) :
    ∀ attempt max_retries, attempt + k' + 1 = max_retries →
      runAttempts max_retries attempt (List.replicate (k' + 1) .timeout)
        = (.result none, (List.range k').map fun j => min (2 ^ (attempt + j)) 60) := by
  induction k' with
  | zero =>
    intro attempt max_retries h
    have : ¬ attempt < max_retries - 1 := by omega
    simp [List.replicate_succ, runAttempts_cons_timeout, this]
  | succ k ih =>
    intro attempt max_retries h
    have hlt : attempt < max_retries - 1 := by omega
    have hrec := ih (attempt + 1) max_retries (by omega)
    rw [List.replicate_succ, runAttempts_cons_timeout, if_pos hlt, hrec]
    exact congrArg₂ Prod.mk rfl (backoffWaits_step attempt k)

/-- C2 counterexample: with `max_retries = 3` and a timeout on every
attempt, `get_metadata` returns the normal result `None` (after backoff
waits of 1 and 2 seconds) — it does not raise `APIError`, contrary to the
claim that a timeout on every attempt surfaces an API error. -/
theorem c2_counterexample :
    get_metadata false (List.replicate 3 AttemptOutcome.timeout) 3
        = (ResolveOutcome.result none, [1, 2])
    ∧ ResolveOutcome.result none ≠ ResolveOutcome.apiError := by
  exact ⟨by decide, by decide⟩

/-- C2 (amended): the resolver makes at most `max_retries` attempts and
waits `min(2^attempt, 60)` seconds between consecutive attempts, but after
exhausting the retries the two transient failure kinds diverge: a
non-timeout transient network error raises `APIError`, while a timeout on
every attempt returns the normal result `None`. -/
theorem c2_retry_backoff (mr : Nat) (h : 1 ≤ mr) :
    get_metadata false (List.replicate mr AttemptOutcome.requestError) mr
        = (.apiError, (List.range (mr - 1)).map fun j => min (2 ^ j) 60)
    ∧ get_metadata false (List.replicate mr AttemptOutcome.timeout) mr
        = (.result none, (List.range (mr - 1)).map fun j => min (2 ^ j) 60) := by
  obtain ⟨k', rfl⟩ : ∃ k', mr = k' + 1 := ⟨mr - 1, by omega⟩
  have htake : ∀ o : AttemptOutcome,
      (List.replicate (k' + 1) o).take (k' + 1) = List.replicate (k' + 1) o := by
    intro o
    exact List.take_of_length_le (by simp)
  constructor
  · simp only [get_metadata, if_neg Bool.false_ne_true, htake]
    have := runAttempts_requestError k' 0 (k' + 1) (by omega)
    simpa using this
  · simp only [get_metadata, if_neg Bool.false_ne_true, htake]
    have := runAttempts_timeout k' 0 (k' + 1) (by omega)
    simpa using this

/-- Witness for `c2_retry_backoff` at `max_retries = 3`. -/
theorem c2_retry_backoff_witness :
    get_metadata false (List.replicate 3 AttemptOutcome.requestError) 3
        = (.apiError, [1, 2]) := by
  have h := (c2_retry_backoff 3 (by norm_num)).1
  simpa [List.range_succ] using h

/-- The substring-based per-variant skip test used by `convert_to_ris`
(title2ris.py line 212): any skip pattern contained case-insensitively. -/
def skipSubstrMatch (t : Str) : Bool :=
  SKIP_TITLES.any fun skip => containsSub (lowerStr t) (lowerStr skip)

/-- Title-variant selection of `convert_to_ris` (title2ris.py lines 210-214):
index of the first variant with no substring match, else 0. -/
def selectTitleIndex (titles : List Str) : Nat :=
  match titles.findIdx? (fun t => ! skipSubstrMatch t) with
  | some i => i
  | none => 0

/-- Modelled from the spec: the title-variant selector as C3 describes it,
applying the resolver's `is_special_title` per-variant match rule
(`titleVariantSpecial`) instead of the code's substring test.  Spec-side
definition, for comparison only. -/
def selectTitleIndexSpecRule (titles : List Str) : Nat :=
  match titles.findIdx? (fun t => ! titleVariantSpecial t) with
  | some i => i
  | none => 0

/-- The TI line of `convert_to_ris` (title2ris.py lines 208-215). -/
def titleLines (m : Metadata) : List Str :=
  match m.title with
  | some ts =>
    if ts.isEmpty then []
    else ["TI  - ".toList ++ stripStr (ts.getD (selectTitleIndex ts) [])]
  | none => []

/-- One AU line of `convert_to_ris` (title2ris.py lines 218-225): family
then given, whichever are present, joined by ", "; no line when both are
absent. -/
def authorLine (a : Author) : Option Str :=
  let parts : List Str :=
    (match a.family with | some f => [f] | none => []) ++
    (match a.given with | some g => [g] | none => [])
  if parts.isEmpty then none
  else some ("AU  - ".toList ++ joinSep ", ".toList parts)

/-- The AU lines of `convert_to_ris`, in byline order. -/
def authorLines (m : Metadata) : List Str :=
  (m.author.getD []).filterMap authorLine

/-- The JF/JN lines (title2ris.py lines 228-231): first element of each
list when the field is present and non-empty (Python truthiness). -/
def containerLines (m : Metadata) : List Str :=
  (match m.containerTitle with
   | some (c :: _) => ["JF  - ".toList ++ c]
   | _ => []) ++
  (match m.shortContainerTitle with
   | some (c :: _) => ["JN  - ".toList ++ c]
   | _ => [])

/-- Python `s.replace(a, b)` for a one-character pattern and replacement. -/
def replaceChar (a b : Char) (s : Str) : Str :=
  s.map fun c => if c == a then b else c

/-- One scanning state of `re.sub('<[^<]+?>', '', s)`: `pending` is the
unresolved text started by a '<' (the only character of `pending` that can
be '<' is its first).  A '>' after at least one interior character closes
the pending tag non-greedily and drops it; a new '<' abandons the pending
match attempt, emitting it, since no later match can start inside it. -/
def stripTagsGo : Str → Str → Str
  | pending, [] => pending
  | pending, c :: cs =>
    if pending.isEmpty then
      if c == '<' then stripTagsGo [c] cs
      else c :: stripTagsGo [] cs
    else
      if c == '<' then pending ++ stripTagsGo [c] cs
      else if c == '>' then
        if 2 ≤ pending.length then stripTagsGo [] cs
        else stripTagsGo (pending ++ [c]) cs
      else stripTagsGo (pending ++ [c]) cs

/-- `re.sub('<[^<]+?>', '', s)` (title2ris.py line 241): leftmost,
non-overlapping, non-greedy removal of `<`...`>` tags whose body has at
least one character and no '<'. -/
def stripTags (s : Str) : Str := stripTagsGo [] s

/-- The abstract clean-up chain of `convert_to_ris` (title2ris.py lines
240-242).  The two `replace` calls of the source are written with the
characters the Python literals `'\\u003C'`/`'\\u003E'` denote: `'<'` and
`'>'`, each replaced by itself. -/
def cleanAbstractText (s : Str) : Str :=
  stripStr (replaceChar '\n' ' '
    (stripTags (replaceChar '>' '>' (replaceChar '<' '<' s))))

/-- The AB line (title2ris.py lines 234-243): skipped when the field is
absent or falsy (empty string or empty list); a list contributes its first
element. -/
def abstractLines (m : Metadata) : List Str :=
  match m.abstract with
  | none => []
  | some (.str []) => []
  | some (.list []) => []
  | some (.str s) => ["AB  - ".toList ++ cleanAbstractText s]
  | some (.list (s :: _)) => ["AB  - ".toList ++ cleanAbstractText s]

/-- The publication-date loop (title2ris.py lines 246-251) over the values
of 'published-print', 'published-online', 'created' in priority order
(`none` = key absent).  `metadata[f].get('date-parts', [[]])[0]` raises
IndexError when 'date-parts' maps to [] (modelled as `.error ()`); an empty
first entry falls through to the next field; a non-empty one emits its
first component. -/
def yearLoop : List (Option DateObj) → Except Unit (List Str)
  | [] => .ok []
  | none :: rest => yearLoop rest
  | some d :: rest =>
    match (d.dateParts.getD [[]]).head? with
    | none => .error ()
    | some [] => yearLoop rest
    | some (y :: _) => .ok ["PY  - ".toList ++ (toString y).toList]

/-- A tagged line for an optional string field, emitted when the field is
present and non-empty (Python truthiness). -/
def optStrLine (tag : Str) : Option Str → List Str
  | some (c :: cs) => [tag ++ (c :: cs)]
  | _ => []

/-- The body of `convert_to_ris` (title2ris.py lines 205-276): the ordered
tagged lines, or `.error ()` when the date handling raises. -/
def convertLines (m : Metadata) : Except Unit (List Str) :=
  match yearLoop [m.publishedPrint, m.publishedOnline, m.created] with
  | .error e => .error e
  | .ok yearLs =>
    .ok (["TY  - JOUR".toList]
      ++ titleLines m ++ authorLines m ++ containerLines m ++ abstractLines m
      ++ yearLs
      ++ optStrLine "VL  - ".toList m.volume
      ++ optStrLine "IS  - ".toList m.issue
      ++ optStrLine "SP  - ".toList m.page
      ++ optStrLine "DO  - ".toList m.DOI
      ++ (match m.ISSN with
          | some (s :: _) => ["SN  - ".toList ++ s]
          | _ => [])
      ++ optStrLine "PB  - ".toList m.publisher
      ++ ["ER  - ".toList])

/-- title2ris.py `convert_to_ris`: `None` in gives `None` out; any exception
in the body (the date-parts indexing) is caught and gives `None`; otherwise
the lines joined by newlines. -/
def convert_to_ris (m? : Option Metadata) : Option Str :=
  match m? with
  | none => none
  | some m =>
    match convertLines m with
    | .error _ => none
    | .ok ls => some (joinSep ['\n'] ls)

/-- The example title-variant list for C3: under the resolver's per-variant
rule neither variant is special, so the spec rule picks index 0
("Analysis"); the code's substring rule skips "Analysis", which contains
the pattern "si", and picks "Other". -/
def c3ExTitles : List Str := ["Analysis".toList, "Other".toList]

/-- C3 counterexample: `convert_to_ris` does not apply the resolver's
is-special title rule per variant — it uses case-insensitive substring
containment, and the two selectors disagree on `c3ExTitles`. -/
theorem c3_counterexample :
    selectTitleIndex c3ExTitles = 1
    ∧ selectTitleIndexSpecRule c3ExTitles = 0
    ∧ titleLines { title := some c3ExTitles } = ["TI  - Other".toList]
    ∧ selectTitleIndex c3ExTitles ≠ selectTitleIndexSpecRule c3ExTitles := by
  exact ⟨by decide, by decide, by decide, by decide⟩

/-- C3 (amended): the TI line uses the first title-variant containing no
skip pattern as a case-insensitive substring (not the resolver's boundary
rule); if every variant contains one, the variant at index 0 is used; the
emitted variant is whitespace-trimmed. -/
theorem c3_title_selection (ts : List Str) :
    (∀ i v, ts.findIdx? (fun t => ! skipSubstrMatch t) = some i →
        ts.getD i [] = v →
        titleLines { title := some ts } = ["TI  - ".toList ++ stripStr v])
    ∧ (ts ≠ [] → ts.findIdx? (fun t => ! skipSubstrMatch t) = none →
        titleLines { title := some ts } = ["TI  - ".toList ++ stripStr (ts.getD 0 [])]) := by
  constructor
  · intro i v hfind hv
    have hne : ts ≠ [] := by
      rintro rfl
      simp at hfind
    have hsel : selectTitleIndex ts = i := by
      simp [selectTitleIndex, hfind]
    have hemp : ts.isEmpty = false := by
      cases ts with
      | nil => exact absurd rfl hne
      | cons a l => rfl
    simp only [List.getD, List.get?_eq_getElem?] at hv
    simp [titleLines, hemp, hsel, hv]
  · intro hne hnone
    have hsel : selectTitleIndex ts = 0 := by
      simp [selectTitleIndex, hnone]
    have hemp : ts.isEmpty = false := by
      cases ts with
      | nil => exact absurd rfl hne
      | cons a l => rfl
    simp [titleLines, hemp, hsel]

/-- C7 counterexample: an author entry with only a given name still emits
an author line (the given name alone), where the claim requires that an
entry lacking a family name produce no line. -/
theorem c7_counterexample :
    authorLines { author := some [{ family := none, given := some "John".toList }] }
        = ["AU  - John".toList]
    ∧ ["AU  - John".toList] ≠ ([] : List Str) := by
  exact ⟨by decide, by decide⟩

/-- C7 (amended): one AU line per author having a family name or a given
name — "family, given" when both are present, "family" alone when only the
family name is present, and "given" alone when only the given name is
present; an entry with neither produces no line; byline order is
preserved (filterMap keeps list order). -/
theorem c7_author_lines (authors : List Author) :
    authorLines { author := some authors }
      = authors.filterMap (fun a =>
          match a.family, a.given with
          | some f, some g => some ("AU  - ".toList ++ f ++ ", ".toList ++ g)
          | some f, none => some ("AU  - ".toList ++ f)
          | none, some g => some ("AU  - ".toList ++ g)
          | none, none => none)
    ∧ convertLines { author := some authors }
        = .ok ("TY  - JOUR".toList
            :: (authorLines { author := some authors } ++ ["ER  - ".toList])) := by
  constructor
  · show (authors.filterMap authorLine) = _
    apply List.filterMap_congr
    intro a _
    rcases a with ⟨f, g⟩
    cases f with
    | none =>
      cases g with
      | none => rfl
      | some g => simp [authorLine, joinSep]
    | some f =>
      cases g with
      | none => simp [authorLine, joinSep]
      | some g => simp [authorLine, joinSep]
  · simp [convertLines, yearLoop, titleLines, authorLines, containerLines,
      abstractLines, optStrLine]

/-- The abstract input of C8, with literal backslash escape sequences
(the characters backslash, 'u', '0', '0', '3', 'C' and so on). -/
def c8Input : Str := "<p>Text with \\u003Cb\\u003Ebold\\u003C/b\\u003E</p>".toList

/-- C8 (code bug): on input containing the literal characters
`<`/`>`, the clean-up chain of `convert_to_ris` leaves them
untouched — the source's `replace('<', '<')` resolves its escape in
the Python literal and replaces '<' by itself, a no-op — so the result is
not the spec's "Text with bold". -/
theorem c8_abstract_eval :
    cleanAbstractText c8Input = "Text with \\u003Cb\\u003Ebold\\u003C/b\\u003E".toList
    ∧ cleanAbstractText c8Input ≠ "Text with bold".toList
    ∧ abstractLines { abstract := some (.str c8Input) }
        = ["AB  - ".toList ++ "Text with \\u003Cb\\u003Ebold\\u003C/b\\u003E".toList] := by
  exact ⟨by decide, by decide, by decide⟩

/-- C10: when the highest-priority present date field has 'date-parts'
mapped to the empty list [], the indexing `[0]` raises and the handler
turns the whole record into `None`; the loop falls through to the next
source exactly when the field is absent, its 'date-parts' key is missing
(default [[]]), or the first date-parts entry is empty; a non-empty first
entry emits its first component and stops. -/
theorem c10_date_parts_behaviour :
    (∀ m : Metadata, m.publishedPrint = some { dateParts := some [] } →
        convert_to_ris (some m) = none)
    ∧ (∀ m : Metadata, m.publishedPrint = none →
        m.publishedOnline = some { dateParts := some [] } →
        convert_to_ris (some m) = none)
    ∧ (∀ m : Metadata, m.publishedPrint = none → m.publishedOnline = none →
        m.created = some { dateParts := some [] } →
        convert_to_ris (some m) = none)
    ∧ (∀ rest, yearLoop (none :: rest) = yearLoop rest)
    ∧ (∀ d rest, d.dateParts = none → yearLoop (some d :: rest) = yearLoop rest)
    ∧ (∀ d rest more, d.dateParts = some ([] :: more) →
        yearLoop (some d :: rest) = yearLoop rest)
    ∧ (∀ d rest, d.dateParts = some [] →
        yearLoop (some d :: rest) = Except.error ())
    ∧ (∀ d rest y ys more, d.dateParts = some ((y :: ys) :: more) →
        yearLoop (some d :: rest) = .ok ["PY  - ".toList ++ (toString y).toList]) := by
  refine ⟨fun m h => ?_, fun m h0 h => ?_, fun m h0 h1 h => ?_, fun rest => rfl,
    fun d rest h => ?_, fun d rest more h => ?_, fun d rest h => ?_,
    fun d rest y ys more h => ?_⟩
  · simp [convert_to_ris, convertLines, yearLoop, h]
  · simp [convert_to_ris, convertLines, yearLoop, h0, h]
  · simp [convert_to_ris, convertLines, yearLoop, h0, h1, h]
  · simp [yearLoop, h]
  · simp [yearLoop, h]
  · simp [yearLoop, h]
  · simp [yearLoop, h]

/-- Python truthiness of a per-title result (`if ris:` at line 348):
None and the empty string are falsy. -/
def pyTruthy : Option Str → Bool
  | none => false
  | some s => ! s.isEmpty

/-- The two paths `write_results` can write (title2ris.py lines 284-286):
the output file itself, or its '.backup' sibling when `backup=True`. -/
inductive WriteTarget where
  | primary
  | backup
deriving DecidableEq

/-- The single path one `write_results` call writes to, from its `backup`
argument. -/
def write_results_target (backup : Bool) : WriteTarget :=
  if backup then .backup else .primary

/-- The mutable state of the collection loop of `process_titles_parallel`
(title2ris.py lines 329-354): the index-addressed result slots, the global
success counter, and the checkpoint writes performed so far (path written
and records flushed). -/
structure PoolState where
  results : List (Option Str)
  successCount : Nat
  events : List (WriteTarget × List Str)
deriving DecidableEq

/-- `results = [None] * len(titles)`, zero successes, no checkpoints. -/
def initState (n : Nat) : PoolState :=
  ⟨List.replicate n none, 0, []⟩

/-- One iteration of the `as_completed` loop (title2ris.py lines 342-354)
for the future owning slot `i`: store the record, bump the count when the
record is truthy, and checkpoint — `write_results(..., backup=True)` on the
currently non-None slots — when the count is a positive multiple of
`BATCH_SIZE` (the condition is re-evaluated on every completion). -/
def poolStep (n : Nat) (outcomes : Fin n → Option Str) (st : PoolState)
    (i : Fin n) : PoolState :=
  let res := st.results.set i.val (outcomes i)
  let cnt := st.successCount + (if pyTruthy (outcomes i) then 1 else 0)
  let evs :=
    if 0 < cnt ∧ cnt % BATCH_SIZE = 0 then
      st.events ++ [(write_results_target true, res.reduceOption)]
    else st.events
  ⟨res, cnt, evs⟩

/-- The collection loop of `process_titles_parallel` run over a completion
order (the order in which `as_completed` yields the futures). -/
def runPoolT (n : Nat) (outcomes : Fin n → Option Str)
    (order : List (Fin n)) : PoolState :=
  order.foldl (poolStep n outcomes) (initState n)

/-- The result slots after the collection loop. -/
def runPool (n : Nat) (outcomes : Fin n → Option Str)
    (order : List (Fin n)) : List (Option Str) :=
  (runPoolT n outcomes order).results

theorem runPoolT_results_foldl (n : Nat) (outcomes : Fin n → Option Str) :
    ∀ (order : List (Fin n)) (st : PoolState),
      (order.foldl (poolStep n outcomes) st).results
        = order.foldl (fun r (i : Fin n) => r.set i.val (outcomes i)) st.results := by
  intro order
  induction order with
  | nil => intro st; rfl
  | cons i rest ih =>
    intro st
    simp only [List.foldl_cons]
    exact ih (poolStep n outcomes st i)

theorem foldl_set_getElem (n : Nat) (outcomes : Fin n → Option Str) :
    ∀ (order : List (Fin n)) (st : List (Option Str)) (j : Fin n),
      st.length = n →
      (order.foldl (fun r (i : Fin n) => r.set i.val (outcomes i)) st)[j.val]?
        = if j ∈ order then some (outcomes j) else st[j.val]? := by
  intro order
  induction order with
  | nil => intro st j _; simp
  | cons i rest ih =>
    intro st j hlen
    simp only [List.foldl_cons]
    rw [ih (st.set i.val (outcomes i)) j (by simpa using hlen)]
    by_cases hr : j ∈ rest
    · simp [hr]
    · by_cases hij : j = i
      · subst hij
        have hj : j.val < st.length := by rw [hlen]; exact j.isLt
        simp [hr, List.getElem?_set_self hj]
      · simp [hr, hij, List.getElem?_set_ne (Fin.val_ne_of_ne (Ne.symm hij))]

theorem foldl_set_length (n : Nat) (outcomes : Fin n → Option Str) :
    ∀ (order : List (Fin n)) (st : List (Option Str)),
      (order.foldl (fun r (i : Fin n) => r.set i.val (outcomes i)) st).length
        = st.length := by
  intro order
  induction order with
  | nil => intro st; rfl
  | cons i rest ih =>
    intro st
    simp only [List.foldl_cons]
    rw [ih]
    simp

/-- After any completion order, slot `j` holds the record of title `j` when
task `j` has completed and `None` otherwise. -/
theorem runPoolT_results_eq (n : Nat) (outcomes : Fin n → Option Str)
    (order : List (Fin n)) :
    (runPoolT n outcomes order).results
      = (List.finRange n).map fun j => if j ∈ order then outcomes j else none := by
  have hres := runPoolT_results_foldl n outcomes order (initState n)
  apply List.ext_getElem?
  intro m
  by_cases hm : m < n
  · have hj : (⟨m, hm⟩ : Fin n) = ⟨m, hm⟩ := rfl
    rw [show (runPoolT n outcomes order).results
          = order.foldl (fun r (i : Fin n) => r.set i.val (outcomes i))
              (initState n).results from hres]
    rw [foldl_set_getElem n outcomes order (initState n).results ⟨m, hm⟩
          (by simp [initState])]
    have hr : ((List.finRange n).map
        fun j => if j ∈ order then outcomes j else none)[m]?
          = some (if (⟨m, hm⟩ : Fin n) ∈ order then outcomes ⟨m, hm⟩ else none) := by
      rw [List.getElem?_map]
      rw [List.getElem?_eq_getElem (by simpa using hm)]
      simp
    rw [hr]
    by_cases hmem : (⟨m, hm⟩ : Fin n) ∈ order
    · simp [hmem]
    · simp [hmem, initState, List.getElem?_replicate, hm]
  · rw [List.getElem?_eq_none, List.getElem?_eq_none]
    · simpa using Nat.le_of_not_lt hm
    · rw [show (runPoolT n outcomes order).results
            = order.foldl (fun r (i : Fin n) => r.set i.val (outcomes i))
                (initState n).results from hres]
      rw [foldl_set_length]
      simpa [initState] using Nat.le_of_not_lt hm

/-- C5: for every completion order that is a permutation of the task
indices, the slots end up holding exactly the per-title records in original
input-index order, the emitted list is those records with `None` removed,
and each slot is written exactly once (its index occurs exactly once in the
completion order, and every write to slot `i` stores task `i`'s record). -/
theorem c5_order_independence (n : Nat) (outcomes : Fin n → Option Str)
    (order : List (Fin n)) (h : order.Perm (List.finRange n)) :
    runPool n outcomes order = (List.finRange n).map outcomes
    ∧ (runPool n outcomes order).reduceOption
        = ((List.finRange n).map outcomes).reduceOption
    ∧ ∀ i : Fin n, order.count i = 1 := by
  have hmem : ∀ i : Fin n, i ∈ order := fun i =>
    h.mem_iff.mpr (List.mem_finRange i)
  have heq : runPool n outcomes order = (List.finRange n).map outcomes := by
    rw [runPool, runPoolT_results_eq]
    apply List.map_congr_left
    intro j _
    simp [hmem j]
  refine ⟨heq, by rw [heq], fun i => ?_⟩
  rw [h.count_eq]
  exact List.count_eq_one_of_mem (List.nodup_finRange n) (List.mem_finRange i)

/-- Concrete outcomes for the C5 witness: titles A and C resolve, B fails. -/
def c5ExOutcomes : Fin 3 → Option Str :=
  fun i => ([some "A".toList, none, some "C".toList] : List (Option Str)).get i

/-- A completion order where task 2 finishes first. -/
def c5ExOrder : List (Fin 3) := [2, 0, 1]

/-- Witness for `c5_order_independence` on a concrete out-of-order run. -/
theorem c5_order_independence_witness :
    runPool 3 c5ExOutcomes c5ExOrder = (List.finRange 3).map c5ExOutcomes
    ∧ (runPool 3 c5ExOutcomes c5ExOrder).reduceOption
        = ((List.finRange 3).map c5ExOutcomes).reduceOption
    ∧ ∀ i : Fin 3, c5ExOrder.count i = 1 :=
  c5_order_independence 3 c5ExOutcomes c5ExOrder (by decide)

/-- The cumulative success count after the first `k` completions. -/
def succCountAfter (n : Nat) (outcomes : Fin n → Option Str)
    (order : List (Fin n)) (k : Nat) : Nat :=
  (order.take k).countP fun i => pyTruthy (outcomes i)

/-- The non-None records held in the slots after the first `k`
completions. -/
def entriesAfter (n : Nat) (outcomes : Fin n → Option Str)
    (order : List (Fin n)) (k : Nat) : List Str :=
  (runPoolT n outcomes (order.take k)).results.reduceOption

/-- The checkpoint condition as evaluated after completion number `k + 1`. -/
def checkCond (n : Nat) (outcomes : Fin n → Option Str)
    (order : List (Fin n)) (k : Nat) : Bool :=
  decide (0 < succCountAfter n outcomes order (k + 1)
    ∧ succCountAfter n outcomes order (k + 1) % BATCH_SIZE = 0)

/-- The (0-based) completions after which the loop checkpoints. -/
def checkTimes (n : Nat) (outcomes : Fin n → Option Str)
    (order : List (Fin n)) : List Nat :=
  (List.range order.length).filter (checkCond n outcomes order)

theorem take_append_left {α : Type _} :
    ∀ (l₁ l₂ : List α) (k : Nat), k ≤ l₁.length → (l₁ ++ l₂).take k = l₁.take k
  | _, _, 0, _ => by simp
  | [], _, k + 1, h => by simp at h
  | a :: t, l₂, k + 1, h => by
    simp only [List.cons_append, List.take_succ_cons]
    rw [take_append_left t l₂ k (by simpa using h)]

theorem poolStep_results (n : Nat) (outcomes : Fin n → Option Str)
    (st : PoolState) (i : Fin n) :
    (poolStep n outcomes st i).results = st.results.set i.val (outcomes i) := rfl

theorem poolStep_successCount (n : Nat) (outcomes : Fin n → Option Str)
    (st : PoolState) (i : Fin n) :
    (poolStep n outcomes st i).successCount
      = st.successCount + (if pyTruthy (outcomes i) then 1 else 0) := rfl

theorem poolStep_events (n : Nat) (outcomes : Fin n → Option Str)
    (st : PoolState) (i : Fin n) :
    (poolStep n outcomes st i).events
      = if 0 < st.successCount + (if pyTruthy (outcomes i) then 1 else 0)
           ∧ (st.successCount + (if pyTruthy (outcomes i) then 1 else 0))
               % BATCH_SIZE = 0
        then st.events ++ [(write_results_target true,
               (st.results.set i.val (outcomes i)).reduceOption)]
        else st.events := rfl

theorem runPoolT_snoc (n : Nat) (outcomes : Fin n → Option Str)
    (order : List (Fin n)) (i : Fin n) :
    runPoolT n outcomes (order ++ [i])
      = poolStep n outcomes (runPoolT n outcomes order) i := by
  simp [runPoolT, List.foldl_append]

theorem foldl_successCount (n : Nat) (outcomes : Fin n → Option Str) :
    ∀ (order : List (Fin n)) (st : PoolState),
      (order.foldl (poolStep n outcomes) st).successCount
        = st.successCount + order.countP (fun i => pyTruthy (outcomes i)) := by
  intro order
  induction order with
  | nil => intro st; simp
  | cons i rest ih =>
    intro st
    simp only [List.foldl_cons]
    rw [ih (poolStep n outcomes st i), poolStep_successCount,
      List.countP_cons]
    by_cases h : pyTruthy (outcomes i) = true
    · simp [h]
      omega
    · simp [h]

theorem runPoolT_successCount (n : Nat) (outcomes : Fin n → Option Str)
    (order : List (Fin n)) :
    (runPoolT n outcomes order).successCount
      = order.countP fun i => pyTruthy (outcomes i) := by
  simpa [initState] using foldl_successCount n outcomes order (initState n)

theorem set_eq_of_getElem? {α : Type _} :
    ∀ (l : List α) (i : Nat) (v : α), l[i]? = some v → l.set i v = l
  | [], i, v, h => by simp at h
  | a :: t, 0, v, h => by
    simp only [List.getElem?_cons_zero, Option.some.injEq] at h
    simp [h]
  | a :: t, i + 1, v, h => by
    simp only [List.getElem?_cons_succ] at h
    show a :: t.set i v = a :: t
    rw [set_eq_of_getElem? t i v h]

theorem reduceOption_set_sublist {v : Option Str} :
    ∀ (l : List (Option Str)) (i : Nat), l[i]? = some none →
      l.reduceOption.Sublist ((l.set i v).reduceOption)
  | [], i, h => by simp at h
  | a :: t, 0, h => by
    have ha : a = none := by simpa using h
    subst ha
    cases v with
    | none => simp
    | some x =>
      simp only [List.set_cons_zero, List.reduceOption_cons_of_none,
        List.reduceOption_cons_of_some]
      exact List.sublist_cons_self x _ |>.trans (List.Sublist.refl _)
  | a :: t, i + 1, h => by
    simp only [List.getElem?_cons_succ] at h
    have ih := reduceOption_set_sublist (v := v) t i h
    show (a :: t).reduceOption.Sublist ((a :: t.set i v).reduceOption)
    cases a with
    | none => simpa using ih
    | some x =>
      simpa [List.reduceOption_cons_of_some] using ih.cons₂ x

theorem runPoolT_results_getElem (n : Nat) (outcomes : Fin n → Option Str)
    (ord : List (Fin n)) (j : Fin n) :
    (runPoolT n outcomes ord).results[j.val]?
      = some (if j ∈ ord then outcomes j else none) := by
  rw [runPoolT_results_eq]
  rw [List.getElem?_map, List.getElem?_eq_getElem (by simp)]
  simp

theorem entriesAfter_step (n : Nat) (outcomes : Fin n → Option Str)
    (order : List (Fin n)) (k : Nat) :
    (entriesAfter n outcomes order k).Sublist
      (entriesAfter n outcomes order (k + 1)) := by
  by_cases hk : k < order.length
  · have htake : order.take (k + 1)
        = order.take k ++ [order.get ⟨k, hk⟩] := by
      rw [List.take_succ, List.getElem?_eq_getElem hk]
      rfl
    rw [entriesAfter, entriesAfter, htake, runPoolT_snoc, poolStep_results]
    have hslot := runPoolT_results_getElem n outcomes (order.take k)
      (order.get ⟨k, hk⟩)
    by_cases hmem : (order.get ⟨k, hk⟩) ∈ order.take k
    · rw [if_pos hmem] at hslot
      rw [set_eq_of_getElem? _ _ _ hslot]
    · rw [if_neg hmem] at hslot
      exact reduceOption_set_sublist _ _ hslot
  · have htake : order.take (k + 1) = order.take k := by
      rw [List.take_of_length_le (by omega), List.take_of_length_le (by omega)]
    rw [entriesAfter, entriesAfter, htake]

theorem entriesAfter_mono (n : Nat) (outcomes : Fin n → Option Str)
    (order : List (Fin n)) {k m : Nat} (h : k ≤ m) :
    (entriesAfter n outcomes order k).Sublist
      (entriesAfter n outcomes order m) := by
  induction m, h using Nat.le_induction with
  | base => exact List.Sublist.refl _
  | succ m hm ih => exact ih.trans (entriesAfter_step n outcomes order m)

theorem runPoolT_events_trace (n : Nat) (outcomes : Fin n → Option Str) :
    ∀ order : List (Fin n),
      (runPoolT n outcomes order).events
        = (checkTimes n outcomes order).map
            fun k => (WriteTarget.backup, entriesAfter n outcomes order (k + 1)) := by
  intro order
  induction order using List.reverseRecOn with
  | nil => rfl
  | append_singleton order i ih =>
    have hTakeAll : (order ++ [i]).take (order.length + 1) = order ++ [i] :=
      List.take_of_length_le (by simp)
    have hC : (runPoolT n outcomes order).successCount
          + (if pyTruthy (outcomes i) then 1 else 0)
        = succCountAfter n outcomes (order ++ [i]) (order.length + 1) := by
      rw [succCountAfter, hTakeAll, List.countP_append, runPoolT_successCount]
      simp [List.countP_cons]
    have hR : ((runPoolT n outcomes order).results.set i.val
            (outcomes i)).reduceOption
        = entriesAfter n outcomes (order ++ [i]) (order.length + 1) := by
      rw [entriesAfter, hTakeAll, runPoolT_snoc, poolStep_results]
    have hcondOld : ∀ k ∈ List.range order.length,
        checkCond n outcomes (order ++ [i]) k = checkCond n outcomes order k := by
      intro k hk
      have hk' : k + 1 ≤ order.length := by
        have := List.mem_range.mp hk
        omega
      rw [checkCond, checkCond, succCountAfter, succCountAfter,
        take_append_left order [i] (k + 1) hk']
    have hentsOld : ∀ k ∈ (List.range order.length).filter
          (checkCond n outcomes order),
        (fun k => (WriteTarget.backup,
            entriesAfter n outcomes (order ++ [i]) (k + 1))) k
          = (fun k => (WriteTarget.backup,
              entriesAfter n outcomes order (k + 1))) k := by
      intro k hk
      have hk' : k + 1 ≤ order.length := by
        have := List.mem_range.mp (List.mem_of_mem_filter hk)
        omega
      simp only
      rw [entriesAfter, entriesAfter, take_append_left order [i] (k + 1) hk']
    have hct : checkTimes n outcomes (order ++ [i])
        = (List.range order.length).filter (checkCond n outcomes order)
          ++ (if checkCond n outcomes (order ++ [i]) order.length
              then [order.length] else []) := by
      rw [checkTimes]
      have hlen : (order ++ [i]).length = order.length + 1 := by simp
      rw [hlen, List.range_succ, List.filter_append,
        List.filter_congr hcondOld]
      congr 1
      rw [List.filter_cons]
      simp
    rw [runPoolT_snoc, poolStep_events, hct, List.map_append,
      List.map_congr_left hentsOld]
    rw [show (List.range order.length).filter (checkCond n outcomes order)
          = checkTimes n outcomes order from rfl]
    rw [← ih]
    rw [hC]
    by_cases hP : 0 < succCountAfter n outcomes (order ++ [i]) (order.length + 1)
        ∧ succCountAfter n outcomes (order ++ [i]) (order.length + 1)
            % BATCH_SIZE = 0
    · have hb : checkCond n outcomes (order ++ [i]) order.length = true := by
        rw [checkCond]
        exact decide_eq_true hP
      rw [if_pos hP]
      simp [hb, hR, write_results_target]
    · have hb : checkCond n outcomes (order ++ [i]) order.length = false := by
        rw [checkCond]
        exact decide_eq_false hP
      rw [if_neg hP]
      simp [hb]

/-- Outcomes for the C6 counterexample: the first three titles resolve
(records "a", "b", "c") and the fourth fails. -/
def c6ExOutcomes : Fin 4 → Option Str :=
  fun i => ([some "a".toList, some "b".toList, some "c".toList, none]
    : List (Option Str)).get i

/-- In-order completion of the four tasks. -/
def c6ExOrder : List (Fin 4) := [0, 1, 2, 3]

/-- C6 counterexample: with `BATCH_SIZE = 3`, three successes and then one
failed completion, the loop checkpoints twice — the success count reaches a
positive multiple of `BATCH_SIZE` only once, but the condition is
re-evaluated on the failed completion while the count is still 3 — and
every checkpoint writes only the `.backup` path, never the primary output
file. -/
theorem c6_counterexample :
    (runPoolT 4 c6ExOutcomes c6ExOrder).events
        = [(WriteTarget.backup, ["a".toList, "b".toList, "c".toList]),
           (WriteTarget.backup, ["a".toList, "b".toList, "c".toList])]
    ∧ (runPoolT 4 c6ExOutcomes c6ExOrder).successCount = 3
    ∧ BATCH_SIZE = 3 := by
  exact ⟨by decide, by decide, by decide⟩

/-- C6 (amended): a checkpoint write occurs after exactly those completions
at which the cumulative success count (counted globally) is a positive
multiple of `BATCH_SIZE` — including completions that add no success, so a
multiple can be flushed repeatedly; each checkpoint writes all currently
non-empty results to the `.backup` file only (not the primary output); the
flushed record sets are non-decreasing across successive checkpoints. -/
theorem c6_checkpoint_behaviour (n : Nat) (outcomes : Fin n → Option Str)
    (order : List (Fin n)) :
    (runPoolT n outcomes order).events
      = (checkTimes n outcomes order).map
          (fun k => (WriteTarget.backup, entriesAfter n outcomes order (k + 1)))
    ∧ List.Chain' (fun a b : WriteTarget × List Str => a.2.Sublist b.2)
        (runPoolT n outcomes order).events := by
  refine ⟨runPoolT_events_trace n outcomes order, ?_⟩
  rw [runPoolT_events_trace n outcomes order]
  apply List.Pairwise.chain'
  rw [List.pairwise_map]
  have hp : (checkTimes n outcomes order).Pairwise (· < ·) :=
    List.Pairwise.filter _ (List.pairwise_lt_range _)
  exact hp.imp fun hab => entriesAfter_mono n outcomes order (by omega)

/-- Where an operator interrupt (KeyboardInterrupt) lands, if any: inside
the collection loop of `process_titles_parallel` after `k` completions
(caught at title2ris.py line 359), or outside that loop (caught by `main`
at line 399), or nowhere. -/
inductive RunScenario where
  | complete
  | interruptDuring (k : Nat)
  | interruptOutside
deriving DecidableEq

/-- How the process ends: its exit status and the final `write_results`
calls performed by `main` (target path and records; file I/O is assumed to
succeed). -/
structure MainResult where
  exitCode : Nat
  finalWrites : List (WriteTarget × List Str)
deriving DecidableEq

/-- The control flow of `main` (title2ris.py lines 367-404) around
`process_titles_parallel` (lines 326-364): an interrupt inside the loop is
caught there, the partial results are returned and `main` continues
normally — writing them to the primary output file when non-empty and
finishing with exit status 0; an interrupt outside the loop reaches
`main`'s handler, which calls sys.exit(1) before any write. -/
def mainRun (n : Nat) (outcomes : Fin n → Option Str) (order : List (Fin n)) :
    RunScenario → MainResult
  | .interruptOutside => ⟨1, []⟩
  | .complete =>
    let entries := (runPoolT n outcomes order).results.reduceOption
    if entries.isEmpty then ⟨0, []⟩
    else ⟨0, [(write_results_target false, entries)]⟩
  | .interruptDuring k =>
    let entries := (runPoolT n outcomes (order.take k)).results.reduceOption
    if entries.isEmpty then ⟨0, []⟩
    else ⟨0, [(write_results_target false, entries)]⟩

/-- C9 counterexample: interrupted after 2 of 3 completions with one record
resolved, the run flushes the partial results and exits with status 0 — not
the claimed non-zero status. -/
theorem c9_counterexample :
    mainRun 3 c5ExOutcomes ([0, 1, 2] : List (Fin 3))
        (RunScenario.interruptDuring 2)
      = ⟨0, [(WriteTarget.primary, ["A".toList])]⟩
    ∧ (mainRun 3 c5ExOutcomes ([0, 1, 2] : List (Fin 3))
        (RunScenario.interruptDuring 2)).exitCode = 0 := by
  exact ⟨by decide, by decide⟩

/-- C9 (amended): an interrupt during processing preserves exactly the
records of the tasks completed so far and flushes them to the primary
output file, but the process then exits with status 0 (the interrupt is
caught inside process_titles_parallel and main continues normally); a
non-zero exit occurs only when the interrupt lands outside the processing
loop, and then nothing is flushed. -/
theorem c9_interrupt_behaviour (n : Nat) (outcomes : Fin n → Option Str)
    (order : List (Fin n)) (k : Nat) :
    (mainRun n outcomes order (RunScenario.interruptDuring k)).exitCode = 0
    ∧ (mainRun n outcomes order (RunScenario.interruptDuring k)).finalWrites
        = (if (((List.finRange n).map fun j =>
                if j ∈ order.take k then outcomes j else none).reduceOption).isEmpty
           then []
           else [(WriteTarget.primary,
              ((List.finRange n).map fun j =>
                if j ∈ order.take k then outcomes j else none).reduceOption)])
    ∧ mainRun n outcomes order RunScenario.interruptOutside = ⟨1, []⟩ := by
  have hres := runPoolT_results_eq n outcomes (order.take k)
  refine ⟨?_, ?_, rfl⟩
  · simp only [mainRun]
    split
    · rfl
    · rfl
  · simp only [mainRun, hres, write_results_target]
    split
    · rfl
    · rfl
